import Mathlib

set_option maxHeartbeats 1000000

namespace CloudflareIntegration

/-- Modelled from the spec: kubizone_common's DomainSegment is an external dependency of
this repository. The spec describes FQDNs as ordered sequences of validated domain labels
where an invalid label is a parse error. A label is valid iff it is nonempty and consists
of alphanumerics or hyphens. -/
structure DomainSegment where
  val : String
deriving DecidableEq

def validLabel (s : String) : Bool :=
  !s.data.isEmpty && s.data.all (fun c => c.isAlphanum || c == '-')

/-- Modelled from the spec: DomainSegment::try_from validates a single label and fails on
an invalid one. -/
def DomainSegment.tryFrom (s : String) : Except String DomainSegment :=
  if validLabel s then Except.ok ⟨s⟩ else Except.error s

/-- Modelled from the spec: FullyQualifiedDomainName is an ordered sequence of validated
labels; equality is label-sequence equality. -/
structure FullyQualifiedDomainName where
  segments : List DomainSegment
deriving DecidableEq

/-- Modelled from the spec: rendering an FQDN back to dot-separated text, as used when the
client sends an entry's fqdn as the record name. -/
def fqdnToString (f : FullyQualifiedDomainName) : String :=
  String.intercalate "." (f.segments.map DomainSegment.val)

/-- DNS record types (kubizone_common::Type); only the SOA distinction matters to the code
under src/, via Type::is_soa. -/
inductive DnsType where
  | A
  | AAAA
  | CNAME
  | MX
  | NS
  | SOA
  | SRV
  | TXT
deriving DecidableEq

def DnsType.is_soa : DnsType → Bool
  | .SOA => true
  | _ => false

/-- RecordIdent from kubizone_common: the (fqdn, type, rdata) identity triple. Field order
matches the struct literal in src/src/cloudflare/models.rs. -/
structure RecordIdent where
  fqdn : FullyQualifiedDomainName
  rtype : DnsType
  rdata : String
deriving DecidableEq

/-- Record from src/src/cloudflare/models.rs: provider-assigned id, fqdn, type, rdata,
optional comment, tags, ttl. -/
structure Record where
  id : String
  fqdn : FullyQualifiedDomainName
  rtype : DnsType
  rdata : String
  comment : Option String
  tags : List String
  ttl : Nat
deriving DecidableEq

/-- From &Record for RecordIdent in src/src/cloudflare/models.rs. -/
def RecordIdent.ofRecord (r : Record) : RecordIdent :=
  ⟨r.fqdn, r.rtype, r.rdata⟩

/-- Record::is_managed_by from src/src/cloudflare/models.rs: the literal tag
managed-by:controller_name is in the tag list, or the comment equals it. -/
def Record.is_managed_by (r : Record) (controller_name : String) : Bool :=
  let tag := "managed-by:" ++ controller_name
  r.tags.contains tag || r.comment == some tag

/-- ZoneEntry from kubizone_crds (external dependency). Modelled from the spec: a desired
entry is fqdn, record-type, rdata, ttl. -/
structure ZoneEntry where
  fqdn : FullyQualifiedDomainName
  type_ : DnsType
  rdata : String
  ttl : Nat
deriving DecidableEq

/-- Modelled from the spec: RecordIdent::from(&ZoneEntry) (kubizone_common) projects the
identity triple, deliberately excluding ttl. -/
def RecordIdent.ofEntry (e : ZoneEntry) : RecordIdent :=
  ⟨e.fqdn, e.type_, e.rdata⟩

/-- Zone from src/src/cloudflare/models.rs: provider-assigned id plus fqdn. Named CfZone to
distinguish it from the kubernetes Zone resource. -/
structure CfZone where
  id : String
  fqdn : FullyQualifiedDomainName
deriving DecidableEq

/-- InternalRecord from src/src/cloudflare/models.rs: the raw wire shape of a record. -/
structure InternalRecord where
  id : String
  name : String
  rtype : DnsType
  content : String
  comment : Option String
  tags : List String
  ttl : Nat
deriving DecidableEq

/-- Helper for splitting on the dot character: walks the character list accumulating the
current chunk, emitting a chunk at every dot, exactly like str::split('.') which yields an
empty chunk for adjacent dots and one empty chunk for the empty string. -/
def splitDotAux : List Char → List Char → List String
  | [], acc => [String.mk acc.reverse]
  | c :: rest, acc =>
    if c = '.' then String.mk acc.reverse :: splitDotAux rest []
    else splitDotAux rest (c :: acc)

/-- Rust's name.split('.') over the record or zone name. -/
def splitOnDot (s : String) : List String :=
  splitDotAux s.data []

/-- The fqdn parse in From(InternalRecord) and From(InternalZone):
Result::from_iter(name.split('.').map(DomainSegment::try_from)). -/
def parseFqdn (name : String) : Except String FullyQualifiedDomainName :=
  ((splitOnDot name).mapM DomainSegment.tryFrom).map FullyQualifiedDomainName.mk

/-- From(InternalRecord) for Record in src/src/cloudflare/models.rs. The Rust code calls
.unwrap() on the fqdn parse result; none models that panic. -/
def Record.fromInternal (r : InternalRecord) : Option Record :=
  match parseFqdn r.name with
  | .error _ => none
  | .ok fqdn => some ⟨r.id, fqdn, r.rtype, r.content, r.comment, r.tags, r.ttl⟩

/-- InternalZone from src/src/cloudflare/models.rs. -/
structure InternalZone where
  id : String
  name : String
deriving DecidableEq

/-- From(InternalZone) for Zone in src/src/cloudflare/models.rs; none models the panic on
.unwrap() of the fqdn parse. -/
def CfZone.fromInternal (z : InternalZone) : Option CfZone :=
  match parseFqdn z.name with
  | .error _ => none
  | .ok fqdn => some ⟨z.id, fqdn⟩

/-- ApiError from src/src/cloudflare/models.rs. -/
structure ApiError where
  code : Nat
  message : String
deriving DecidableEq

/-- Message from src/src/cloudflare/models.rs. -/
structure Message where
  code : Nat
  message : String
deriving DecidableEq

/-- ApiResult from src/src/cloudflare/models.rs: discriminated success or error envelope. -/
inductive ApiResult (T : Type) where
  | success (result : T) (messages : List Message)
  | error (errors : List ApiError)
deriving DecidableEq

/-- InternalApiResult from src/src/cloudflare/models.rs: raw wire envelope. -/
structure InternalApiResult (T : Type) where
  errors : List ApiError
  messages : List Message
  success : Bool
  result : Option T

/-- From(InternalApiResult) for ApiResult in src/src/cloudflare/models.rs. The Rust code
calls value.result.unwrap() when success is true; none models that panic. -/
def ApiResult.fromInternal {T : Type} (v : InternalApiResult T) : Option (ApiResult T) :=
  if v.success then
    match v.result with
    | some r => some (.success r v.messages)
    | none => none
  else
    some (.error v.errors)

/-- ApiResult::into_result from src/src/cloudflare/models.rs: a success envelope yields its
payload (messages are dropped after logging); an error envelope yields errors.pop(), the
last error of the list. The Rust code calls .unwrap() on the pop; none models that panic. -/
def ApiResult.into_result {T : Type} : ApiResult T → Option (Except ApiError T)
  | .success r _ => some (.ok r)
  | .error errs =>
    match errs.getLast? with
    | some e => some (.error e)
    | none => none

/-- Mode from src/src/main.rs. -/
inductive Mode where
  | Upsert
  | Delete
deriving DecidableEq

section MapModel

variable {K V : Type} [DecidableEq K]

/-- HashMap::contains_key on the association-list model. -/
def containsKey (m : List (K × V)) (k : K) : Bool :=
  m.any (fun p => decide (p.1 = k))

/-- HashMap::get on the association-list model. -/
def lookupMap (m : List (K × V)) (k : K) : Option V :=
  (m.find? (fun p => decide (p.1 = k))).map Prod.snd

/-- One insertion step of collecting an iterator into a HashMap: inserting a key that is
already present replaces its value, otherwise the pair is appended. -/
def insertReplace (m : List (K × V)) (k : K) (v : V) : List (K × V) :=
  if containsKey m k then
    m.map (fun p => if p.1 = k then (k, v) else p)
  else
    m ++ [(k, v)]

/-- Rust's iterator.collect into a HashMap, as an association list with unique keys and
last-seen-wins on duplicate keys. -/
def collectMap (l : List (K × V)) : List (K × V) :=
  l.foldl (fun m p => insertReplace m p.1 p.2) []

end MapModel

/-- One provider mutation request issued by the reconcile pass, carrying the arguments the
code in src/src/main.rs passes to CloudFlare::create_record, update_record, and
delete_record. -/
inductive ProviderCall where
  | create (zone_id : String) (controller_name : String) (entry : ZoneEntry)
  | update (zone_id : String) (record_id : String) (entry : ZoneEntry)
  | delete (zone_id : String) (record_id : String)
deriving DecidableEq

/-- Whether a provider call targets a given provider-assigned record id. Creates target no
existing record. -/
def callTargetsId (c : ProviderCall) (rid : String) : Bool :=
  match c with
  | .create _ _ _ => false
  | .update _ i _ => i == rid
  | .delete _ i => i == rid

/-- Body of the create loop in src/src/main.rs: a desired pair whose identity is absent
from the actual map yields one create call. -/
def createStep (zid cname : String) (records : List (RecordIdent × Record))
    (p : RecordIdent × ZoneEntry) : Option ProviderCall :=
  if containsKey records p.1 then none
  else some (.create zid cname p.2)

/-- Body of the delete loop in src/src/main.rs: an actual pair whose identity is absent
from the desired map is skipped when unmanaged, deleted when mode is Delete, and only
logged when mode is Upsert. -/
def deleteStep (zid cname : String) (mode : Mode) (entries : List (RecordIdent × ZoneEntry))
    (p : RecordIdent × Record) : Option ProviderCall :=
  if containsKey entries p.1 then none
  else if !p.2.is_managed_by cname then none
  else if mode = Mode.Delete then some (.delete zid p.2.id)
  else none

/-- Body of the update loop in src/src/main.rs: a desired pair whose identity is also an
actual key is skipped when the actual record is unmanaged or when rdata and ttl already
match, and otherwise yields one update call against the actual record's id. -/
def updateStep (zid cname : String) (records : List (RecordIdent × Record))
    (p : RecordIdent × ZoneEntry) : Option ProviderCall :=
  match lookupMap records p.1 with
  | none => none
  | some r =>
    if !r.is_managed_by cname then none
    else if p.2.rdata = r.rdata ∧ p.2.ttl = r.ttl then none
    else some (.update zid r.id p.2)

def createCalls (zid cname : String) (records : List (RecordIdent × Record))
    (entries : List (RecordIdent × ZoneEntry)) : List ProviderCall :=
  entries.filterMap (createStep zid cname records)

def deleteCalls (zid cname : String) (mode : Mode) (records : List (RecordIdent × Record))
    (entries : List (RecordIdent × ZoneEntry)) : List ProviderCall :=
  records.filterMap (deleteStep zid cname mode entries)

def updateCalls (zid cname : String) (records : List (RecordIdent × Record))
    (entries : List (RecordIdent × ZoneEntry)) : List ProviderCall :=
  entries.filterMap (updateStep zid cname records)

/-- The actual-records map built in src/src/main.rs: records keyed by RecordIdent. -/
def buildRecords (actual : List Record) : List (RecordIdent × Record) :=
  collectMap (actual.map (fun r => (RecordIdent.ofRecord r, r)))

/-- The desired-entries map built in src/src/main.rs: SOA entries filtered out, the rest
keyed by RecordIdent. -/
def buildEntries (desired : List ZoneEntry) : List (RecordIdent × ZoneEntry) :=
  collectMap ((desired.filter (fun e => ! e.type_.is_soa)).map
    (fun e => (RecordIdent.ofEntry e, e)))

/-- The provider calls issued by one reconcile pass over a zone, in source order: the
create loop, then the delete loop, then the update loop of src/src/main.rs. -/
def reconcileZone (zid cname : String) (mode : Mode) (actual : List Record)
    (desired : List ZoneEntry) : List ProviderCall :=
  createCalls zid cname (buildRecords actual) (buildEntries desired)
    ++ deleteCalls zid cname mode (buildRecords actual) (buildEntries desired)
    ++ updateCalls zid cname (buildRecords actual) (buildEntries desired)

/-- The kubernetes Zone resource as consumed by reconcile in src/src/main.rs: a name, an
optional fqdn, and an optional status carrying the desired entries. -/
structure KubeZone where
  name : String
  fqdn : Option FullyQualifiedDomainName
  status_entries : Option (List ZoneEntry)

/-- The Error variants of src/src/main.rs that reconcile itself produces. -/
inductive ReconcileError where
  | zoneNotFound (fqdn : FullyQualifiedDomainName)
  | zoneHasNoEntries (name : String)
deriving DecidableEq

/-- The successful outcome of reconcile: Action::requeue. -/
inductive Action where
  | requeue
deriving DecidableEq

/-- Context::find_cloudflare_zone from src/src/main.rs: the first catalog zone whose fqdn
is exactly equal to the requested fqdn, or the typed zone-not-found error. -/
def find_cloudflare_zone (zones : List CfZone) (fqdn : FullyQualifiedDomainName) :
    Except ReconcileError CfZone :=
  match zones.find? (fun z => decide (z.fqdn = fqdn)) with
  | some z => .ok z
  | none => .error (.zoneNotFound fqdn)

/-- The reconcile function of src/src/main.rs: its returned Result together with the list
of provider mutation calls it issues. A zone without an fqdn returns Ok(requeue) early; a
zone whose status is absent fails with ZoneHasNoEntries after the records fetch but before
any mutation; otherwise the three diff loops run. -/
def reconcile (cname : String) (mode : Mode) (catalog : List CfZone)
    (fetchRecords : String → List Record) (zone : KubeZone) :
    Except ReconcileError Action × List ProviderCall :=
  match zone.fqdn with
  | none => (.ok .requeue, [])
  | some fqdn =>
    match find_cloudflare_zone catalog fqdn with
    | .error e => (.error e, [])
    | .ok cfz =>
      match zone.status_entries with
      | none => (.error (.zoneHasNoEntries zone.name), [])
      | some desired =>
        (.ok .requeue, reconcileZone cfz.id cname mode (fetchRecords cfz.id) desired)

/-- The CreateRecord request body built inside CloudFlare::create_record in
src/src/cloudflare.rs. -/
structure CreateRecord where
  content : String
  name : String
  proxied : Bool
  rtype : DnsType
  comment : String
  id : String
  tags : List String
  zone_id : String
deriving DecidableEq

/-- CloudFlare::create_record from src/src/cloudflare.rs: the request payload sent for a
desired entry, stamping the comment with the owner marker. -/
def create_record_payload (zone_id managed_by : String) (entry : ZoneEntry) : CreateRecord :=
  { content := entry.rdata
    name := fqdnToString entry.fqdn
    proxied := false
    rtype := entry.type_
    comment := "managed-by:" ++ managed_by
    id := ""
    tags := []
    zone_id := zone_id }

/-- The UpdateRecord request body built inside CloudFlare::update_record in
src/src/cloudflare.rs: only content and ttl are sent; tags and comment are omitted. -/
structure UpdateRecord where
  content : String
  ttl : Nat
deriving DecidableEq

/-- CloudFlare::update_record from src/src/cloudflare.rs: the request payload for an
entry. -/
def update_record_payload (entry : ZoneEntry) : UpdateRecord :=
  { content := entry.rdata, ttl := entry.ttl }

/-- Sample fqdn a.example.com used in concrete scenarios. -/
def fqdnAExample : FullyQualifiedDomainName := ⟨[⟨"a"⟩, ⟨"example"⟩, ⟨"com"⟩]⟩

/-- Sample fqdn example.com used in concrete scenarios. -/
def fqdnExample : FullyQualifiedDomainName := ⟨[⟨"example"⟩, ⟨"com"⟩]⟩

/-- Sample fqdn sub.example.com used in concrete scenarios. -/
def fqdnSub : FullyQualifiedDomainName := ⟨[⟨"sub"⟩, ⟨"example"⟩, ⟨"com"⟩]⟩

/-- Sample actual record owned by controller kz. -/
def sampleManagedRecord : Record :=
  ⟨"1", fqdnAExample, .A, "1.2.3.4", some "managed-by:kz", [], 300⟩

/-- Sample actual record with a foreign comment, not owned by controller kz. -/
def sampleHandRecord : Record :=
  ⟨"1", fqdnAExample, .A, "1.2.3.4", some "hand-managed", [], 300⟩

/-- Sample desired entry sharing sampleManagedRecord's identity but with ttl 600. -/
def sampleEntryTtl600 : ZoneEntry := ⟨fqdnAExample, .A, "1.2.3.4", 600⟩

/-- Sample desired entry equal to sampleManagedRecord in rdata and ttl. -/
def sampleEntryTtl300 : ZoneEntry := ⟨fqdnAExample, .A, "1.2.3.4", 300⟩

/-- Sample desired entry with no matching actual record. -/
def sampleEntryNew : ZoneEntry := ⟨⟨[⟨"b"⟩, ⟨"example"⟩, ⟨"com"⟩]⟩, .A, "5.6.7.8", 300⟩

section MapLemmas

variable {K V : Type} [DecidableEq K]

theorem containsKey_eq_true_iff {m : List (K × V)} {k : K} :
    containsKey m k = true ↔ ∃ v, (k, v) ∈ m := by
  unfold containsKey
  rw [List.any_eq_true]
  constructor
  · rintro ⟨p, hp, hd⟩
    simp only [decide_eq_true_eq] at hd
    exact ⟨p.2, by cases p; cases hd; exact hp⟩
  · rintro ⟨v, hv⟩
    exact ⟨(k, v), hv, by simp⟩

theorem containsKey_of_mem {m : List (K × V)} {p : K × V} (hp : p ∈ m) :
    containsKey m p.1 = true :=
  containsKey_eq_true_iff.mpr ⟨p.2, hp⟩

theorem mem_insertReplace {m : List (K × V)} {k : K} {v : V} {p : K × V}
    (hp : p ∈ insertReplace m k v) : p ∈ m ∨ p = (k, v) := by
  unfold insertReplace at hp
  split at hp
  · rcases List.mem_map.mp hp with ⟨q, hq, rfl⟩
    by_cases h : q.1 = k
    · right
      simp [h]
    · left
      simpa [h] using hq
  · rcases List.mem_append.mp hp with h | h
    · exact Or.inl h
    · exact Or.inr (by simpa using h)

theorem keys_insertReplace (m : List (K × V)) (k : K) (v : V) :
    (insertReplace m k v).map Prod.fst =
      if containsKey m k then m.map Prod.fst else m.map Prod.fst ++ [k] := by
  unfold insertReplace
  split
  · rw [List.map_map]
    apply List.map_congr_left
    intro p _
    by_cases hk : p.1 = k
    · simp [hk]
    · simp [hk]
  · simp

theorem keys_nodup_insertReplace {m : List (K × V)} (h : (m.map Prod.fst).Nodup)
    (k : K) (v : V) : ((insertReplace m k v).map Prod.fst).Nodup := by
  rw [keys_insertReplace]
  split
  · exact h
  · rename_i hc
    have hnk : k ∉ m.map Prod.fst := by
      intro hk
      rcases List.mem_map.mp hk with ⟨p, hp, he⟩
      exact hc (he ▸ containsKey_of_mem hp)
    simp [List.nodup_append, h, hnk]

theorem foldl_insertReplace_mem {l : List (K × V)} :
    ∀ {m : List (K × V)} {p : K × V},
      p ∈ l.foldl (fun m q => insertReplace m q.1 q.2) m → p ∈ m ∨ p ∈ l := by
  induction l with
  | nil =>
    intro m p hp
    exact Or.inl hp
  | cons hd t ih =>
    intro m p hp
    rcases ih hp with h | h
    · rcases mem_insertReplace h with h2 | h2
      · exact Or.inl h2
      · exact Or.inr (by simp [h2])
    · exact Or.inr (List.mem_cons_of_mem _ h)

theorem mem_collectMap {l : List (K × V)} {p : K × V} (hp : p ∈ collectMap l) : p ∈ l := by
  rcases foldl_insertReplace_mem hp with h | h
  · simp at h
  · exact h

theorem foldl_insertReplace_keys_nodup {l : List (K × V)} :
    ∀ {m : List (K × V)}, (m.map Prod.fst).Nodup →
      ((l.foldl (fun m q => insertReplace m q.1 q.2) m).map Prod.fst).Nodup := by
  induction l with
  | nil =>
    intro m h
    exact h
  | cons hd t ih =>
    intro m h
    exact ih (keys_nodup_insertReplace h hd.1 hd.2)

theorem collectMap_keys_nodup (l : List (K × V)) : ((collectMap l).map Prod.fst).Nodup :=
  foldl_insertReplace_keys_nodup (by simp)

theorem foldl_insertReplace_fresh {l : List (K × V)} :
    ∀ {m : List (K × V)}, (∀ p ∈ l, containsKey m p.1 = false) →
      (l.map Prod.fst).Nodup →
      l.foldl (fun m q => insertReplace m q.1 q.2) m = m ++ l := by
  induction l with
  | nil =>
    intro m _ _
    simp
  | cons hd t ih =>
    intro m hfresh hnd
    have h1 : containsKey m hd.1 = false := hfresh hd (by simp)
    have hstep : insertReplace m hd.1 hd.2 = m ++ [hd] := by
      unfold insertReplace
      rw [if_neg (by simp [h1])]
    rw [List.foldl_cons, hstep]
    have hhd : hd.1 ∉ t.map Prod.fst := (List.nodup_cons.mp (by simpa using hnd)).1
    have hfresh2 : ∀ p ∈ t, containsKey (m ++ [hd]) p.1 = false := by
      intro p hp
      have hm := hfresh p (List.mem_cons_of_mem _ hp)
      have hne : hd.1 ≠ p.1 := by
        intro he
        exact hhd (he ▸ List.mem_map.mpr ⟨p, hp, rfl⟩)
      unfold containsKey at hm ⊢
      simp only [List.any_append, List.any_cons, List.any_nil, hm]
      simp [hne]
    rw [ih hfresh2 (List.nodup_cons.mp (by simpa using hnd)).2]
    simp

theorem collectMap_eq_self {l : List (K × V)} (hnd : (l.map Prod.fst).Nodup) :
    collectMap l = l := by
  unfold collectMap
  rw [foldl_insertReplace_fresh (m := []) (fun p _ => rfl) hnd]
  simp

theorem lookupMap_eq_some_of_mem {m : List (K × V)} (hnd : (m.map Prod.fst).Nodup)
    {k : K} {v : V} (hmem : (k, v) ∈ m) : lookupMap m k = some v := by
  induction m with
  | nil => simp at hmem
  | cons hd t ih =>
    rcases List.mem_cons.mp hmem with h | h
    · unfold lookupMap
      rw [List.find?_cons_of_pos _ (by rw [← h]; simp)]
      rw [← h]
      simp
    · have hk : k ∈ t.map Prod.fst := List.mem_map.mpr ⟨(k, v), h, rfl⟩
      have hne : hd.1 ≠ k := by
        intro he
        exact (List.nodup_cons.mp (by simpa using hnd)).1 (he ▸ hk)
      unfold lookupMap
      rw [List.find?_cons_of_neg _ (by simp [hne])]
      exact ih (List.nodup_cons.mp (by simpa using hnd)).2 h

theorem mem_of_lookupMap_eq_some {m : List (K × V)} {k : K} {v : V}
    (h : lookupMap m k = some v) : (k, v) ∈ m := by
  unfold lookupMap at h
  cases hf : m.find? (fun p => decide (p.1 = k)) with
  | none =>
    rw [hf] at h
    simp at h
  | some q =>
    rw [hf] at h
    simp at h
    have hq := List.mem_of_find?_eq_some hf
    have hpred := List.find?_some hf
    simp only [decide_eq_true_eq] at hpred
    have hqe : q = (k, v) := by
      cases q
      simp_all
    exact hqe ▸ hq

theorem lookupMap_eq_some_of_containsKey {m : List (K × V)} {k : K}
    (hnd : (m.map Prod.fst).Nodup) (h : containsKey m k = true) :
    ∃ v, lookupMap m k = some v := by
  rcases containsKey_eq_true_iff.mp h with ⟨v, hv⟩
  exact ⟨v, lookupMap_eq_some_of_mem hnd hv⟩

end MapLemmas

section CountLemmas

theorem count_filterMap {α β : Type} [DecidableEq β] (f : α → Option β) (l : List α)
    (b : β) : (l.filterMap f).count b = l.countP (fun a => decide (f a = some b)) := by
  induction l with
  | nil => rfl
  | cons hd t ih =>
    rw [List.filterMap_cons, List.countP_cons]
    cases hf : f hd with
    | none => simp [hf, ih]
    | some x =>
      rw [List.count_cons]
      simp only [hf, Option.some.injEq, ih]
      by_cases hx : x = b
      · simp [hx]
      · simp [hx]

theorem countP_eq_one_of_key_nodup {K V : Type} [DecidableEq K] {m : List (K × V)}
    (hnd : (m.map Prod.fst).Nodup) {i : K} {v : V} (hmem : (i, v) ∈ m)
    (q : K × V → Bool) (hq : ∀ p ∈ m, (q p = true ↔ p = (i, v))) :
    m.countP q = 1 := by
  induction m with
  | nil => simp at hmem
  | cons hd t ih =>
    rw [List.countP_cons]
    have hnd2 : (t.map Prod.fst).Nodup := (List.nodup_cons.mp (by simpa using hnd)).2
    have hhd : hd.1 ∉ t.map Prod.fst := (List.nodup_cons.mp (by simpa using hnd)).1
    rcases List.mem_cons.mp hmem with h | h
    · have hqhd : q hd = true := (hq hd (by simp)).mpr h.symm
      have ht : t.countP q = 0 := by
        rw [List.countP_eq_zero]
        intro p hp hqp
        have hpe : p = (i, v) := (hq p (List.mem_cons_of_mem _ hp)).mp hqp
        have hk : p.1 ∈ t.map Prod.fst := List.mem_map.mpr ⟨p, hp, rfl⟩
        rw [hpe] at hk
        rw [← h] at hhd
        exact hhd hk
      simp [hqhd, ht]
    · have hne : hd ≠ (i, v) := by
        intro he
        have hk : i ∈ t.map Prod.fst := List.mem_map.mpr ⟨(i, v), h, rfl⟩
        rw [he] at hhd
        exact hhd hk
      have hqhd : q hd = false := by
        cases hqv : q hd
        · rfl
        · exact absurd ((hq hd (by simp)).mp hqv) hne
      rw [ih hnd2 h (fun p hp => hq p (List.mem_cons_of_mem _ hp))]
      simp [hqhd]

theorem countP_eq_zero_of_none {K V : Type} [DecidableEq K] {m : List (K × V)}
    (q : K × V → Bool) (hq : ∀ p ∈ m, q p = false) : m.countP q = 0 := by
  rw [List.countP_eq_zero]
  intro p hp hqp
  rw [hq p hp] at hqp
  exact Bool.false_ne_true hqp

end CountLemmas

section StepLemmas

theorem createStep_eq_some_iff {zid cname : String} {records : List (RecordIdent × Record)}
    {p : RecordIdent × ZoneEntry} {c : ProviderCall} :
    createStep zid cname records p = some c ↔
      containsKey records p.1 = false ∧ c = ProviderCall.create zid cname p.2 := by
  unfold createStep
  cases h : containsKey records p.1 <;> simp [h, eq_comm]

theorem deleteStep_eq_some_iff {zid cname : String} {mode : Mode}
    {entries : List (RecordIdent × ZoneEntry)} {p : RecordIdent × Record}
    {c : ProviderCall} :
    deleteStep zid cname mode entries p = some c ↔
      containsKey entries p.1 = false ∧ p.2.is_managed_by cname = true ∧
        mode = Mode.Delete ∧ c = ProviderCall.delete zid p.2.id := by
  unfold deleteStep
  cases h1 : containsKey entries p.1 <;> cases h2 : p.2.is_managed_by cname <;>
    by_cases h3 : mode = Mode.Delete <;> simp [h1, h2, h3, eq_comm]

theorem updateStep_eq_some_iff {zid cname : String} {records : List (RecordIdent × Record)}
    {p : RecordIdent × ZoneEntry} {c : ProviderCall} :
    updateStep zid cname records p = some c ↔
      ∃ r, lookupMap records p.1 = some r ∧ r.is_managed_by cname = true ∧
        ¬(p.2.rdata = r.rdata ∧ p.2.ttl = r.ttl) ∧ c = ProviderCall.update zid r.id p.2 := by
  constructor
  · intro h
    unfold updateStep at h
    cases hl : lookupMap records p.1 with
    | none =>
      rw [hl] at h
      simp at h
    | some r0 =>
      rw [hl] at h
      dsimp only at h
      by_cases hmg : r0.is_managed_by cname = true
      · by_cases hmatch : p.2.rdata = r0.rdata ∧ p.2.ttl = r0.ttl
        · rw [if_neg (by simp [hmg]), if_pos hmatch] at h
          simp at h
        · rw [if_neg (by simp [hmg]), if_neg hmatch] at h
          exact ⟨r0, rfl, hmg, hmatch, (Option.some.inj h).symm⟩
      · rw [if_pos (by simp [Bool.not_eq_true] at hmg; simp [hmg])] at h
        simp at h
  · rintro ⟨r, hr, hmg, hmatch, hc⟩
    unfold updateStep
    rw [hr]
    simp [hmg, hmatch, hc]

end StepLemmas

section BuildLemmas

theorem buildRecords_key {actual : List Record} {p : RecordIdent × Record}
    (hp : p ∈ buildRecords actual) : p.1 = RecordIdent.ofRecord p.2 := by
  rcases List.mem_map.mp (mem_collectMap hp) with ⟨r, _, he⟩
  rw [← he]

theorem buildRecords_val_mem {actual : List Record} {p : RecordIdent × Record}
    (hp : p ∈ buildRecords actual) : p.2 ∈ actual := by
  rcases List.mem_map.mp (mem_collectMap hp) with ⟨r, hr, he⟩
  rw [← he]
  exact hr

theorem buildEntries_key {desired : List ZoneEntry} {p : RecordIdent × ZoneEntry}
    (hp : p ∈ buildEntries desired) : p.1 = RecordIdent.ofEntry p.2 := by
  rcases List.mem_map.mp (mem_collectMap hp) with ⟨e, _, he⟩
  rw [← he]

theorem buildRecords_keys_nodup (actual : List Record) :
    ((buildRecords actual).map Prod.fst).Nodup :=
  collectMap_keys_nodup _

theorem buildEntries_keys_nodup (desired : List ZoneEntry) :
    ((buildEntries desired).map Prod.fst).Nodup :=
  collectMap_keys_nodup _

theorem buildRecords_eq_self {actual : List Record}
    (hnd : (actual.map RecordIdent.ofRecord).Nodup) :
    buildRecords actual = actual.map (fun r => (RecordIdent.ofRecord r, r)) := by
  unfold buildRecords
  apply collectMap_eq_self
  rw [List.map_map]
  exact hnd

theorem mem_buildRecords_of_nodup {actual : List Record} {r : Record}
    (hnd : (actual.map RecordIdent.ofRecord).Nodup) (hr : r ∈ actual) :
    (RecordIdent.ofRecord r, r) ∈ buildRecords actual := by
  rw [buildRecords_eq_self hnd]
  exact List.mem_map.mpr ⟨r, hr, rfl⟩

end BuildLemmas

/-- C6: the code violates the claim. A response envelope with success set and a null or
absent result payload makes the ApiResult conversion panic on unwrap (modelled as none),
and an envelope with success false and an empty errors list makes into_result panic on
pop().unwrap() (modelled as none). Neither invariant violation is returned to the caller
as a typed error. -/
theorem envelope_invariant_violation_panics :
    ApiResult.fromInternal (⟨[], [], true, none⟩ : InternalApiResult Nat) = none ∧
    ApiResult.into_result (ApiResult.error [] : ApiResult Nat) = none :=
  ⟨rfl, rfl⟩

/-- C7: the code violates the claim. A provider record or zone whose free-text name holds
an invalid label (here the empty label produced by a double dot) makes the From
conversions panic on unwrap (modelled as none) instead of failing with a decode error
surfaced to the caller. -/
theorem malformed_name_panics_instead_of_decode_error :
    Record.fromInternal ⟨"r1", "kubi..zone", .A, "1.2.3.4", none, [], 300⟩ = none ∧
    CfZone.fromInternal ⟨"z1", "kubi..zone"⟩ = none := by
  constructor
  · decide
  · decide

/-- C8: find_cloudflare_zone returns a zone exactly when some catalog zone's fqdn is
equal to the resource fqdn, so a mere sub-domain or suffix relation never matches; when
nothing matches, it returns the typed zone-not-found error carrying the fqdn. -/
theorem zone_lookup_exact_equality (zones : List CfZone)
    (fqdn : FullyQualifiedDomainName) :
    ((∃ z, find_cloudflare_zone zones fqdn = .ok z) ↔ ∃ z ∈ zones, z.fqdn = fqdn) ∧
    ((∀ z ∈ zones, z.fqdn ≠ fqdn) →
      find_cloudflare_zone zones fqdn = .error (.zoneNotFound fqdn)) := by
  constructor
  · constructor
    · rintro ⟨z, hz⟩
      unfold find_cloudflare_zone at hz
      cases hf : zones.find? (fun z => decide (z.fqdn = fqdn)) with
      | none =>
        rw [hf] at hz
        simp at hz
      | some z0 =>
        rw [hf] at hz
        have hm := List.mem_of_find?_eq_some hf
        have hp := List.find?_some hf
        simp only [decide_eq_true_eq] at hp
        exact ⟨z0, hm, hp⟩
    · rintro ⟨z, hz, he⟩
      unfold find_cloudflare_zone
      cases hf : zones.find? (fun z => decide (z.fqdn = fqdn)) with
      | some z0 => exact ⟨z0, rfl⟩
      | none =>
        have hn := List.find?_eq_none.mp hf z hz
        simp only [decide_eq_true_eq] at hn
        exact absurd he hn
  · intro h
    unfold find_cloudflare_zone
    cases hf : zones.find? (fun z => decide (z.fqdn = fqdn)) with
    | some z0 =>
      have hm := List.mem_of_find?_eq_some hf
      have hp := List.find?_some hf
      simp only [decide_eq_true_eq] at hp
      exact absurd hp (h z0 hm)
    | none => rfl

/-- C8 witness: looking up sub.example.com in a catalog holding exactly example.com hits
no zone and returns the typed zone-not-found error. -/
theorem zone_lookup_exact_equality_witness :
    find_cloudflare_zone [⟨"z1", fqdnExample⟩] fqdnSub =
      .error (.zoneNotFound fqdnSub) :=
  (zone_lookup_exact_equality [⟨"z1", fqdnExample⟩] fqdnSub).2 (by decide)

/-- C10: into_result on an error envelope carrying two or more provider errors surfaces
only the last error of the list as the returned ApiError; every earlier error is dropped
from the result. -/
theorem into_result_surfaces_last_error {T : Type} (rest : List ApiError) (e : ApiError)
    (hne : rest ≠ []) :
    ApiResult.into_result (ApiResult.error (rest ++ [e]) : ApiResult T) =
      some (.error e) := by
  unfold ApiResult.into_result
  dsimp only
  rw [List.getLast?_append_cons]
  simp

/-- C10 witness: an error envelope with two errors yields only the second one. -/
theorem into_result_surfaces_last_error_witness :
    ApiResult.into_result
        (ApiResult.error ([⟨1000, "first"⟩] ++ [⟨1001, "second"⟩]) : ApiResult Nat) =
      some (.error ⟨1001, "second"⟩) :=
  into_result_surfaces_last_error [⟨1000, "first"⟩] ⟨1001, "second"⟩ (by decide)

/-- C2: a converged zone is a no-op. When the actual records exactly match the desired
entries — the desired and actual maps carry the same identities and, per identity, rdata
and ttl are both equal — the reconcile pass issues zero provider calls, in either mode. -/
theorem reconcile_idempotent (zid cname : String) (mode : Mode) (actual : List Record)
    (desired : List ZoneEntry)
    (hkeys : ∀ i, containsKey (buildEntries desired) i =
      containsKey (buildRecords actual) i)
    (hmatch : ∀ i e r, lookupMap (buildEntries desired) i = some e →
      lookupMap (buildRecords actual) i = some r → e.rdata = r.rdata ∧ e.ttl = r.ttl) :
    reconcileZone zid cname mode actual desired = [] := by
  unfold reconcileZone
  have hc : createCalls zid cname (buildRecords actual) (buildEntries desired) = [] := by
    rw [createCalls, List.filterMap_eq_nil_iff]
    intro p hp
    have hk : containsKey (buildRecords actual) p.1 = true := by
      rw [← hkeys]
      exact containsKey_of_mem hp
    unfold createStep
    rw [if_pos hk]
  have hd : deleteCalls zid cname mode (buildRecords actual) (buildEntries desired)
      = [] := by
    rw [deleteCalls, List.filterMap_eq_nil_iff]
    intro p hp
    have hk : containsKey (buildEntries desired) p.1 = true := by
      rw [hkeys]
      exact containsKey_of_mem hp
    unfold deleteStep
    rw [if_pos hk]
  have hu : updateCalls zid cname (buildRecords actual) (buildEntries desired) = [] := by
    rw [updateCalls, List.filterMap_eq_nil_iff]
    intro p hp
    have hle : lookupMap (buildEntries desired) p.1 = some p.2 :=
      lookupMap_eq_some_of_mem (buildEntries_keys_nodup desired) hp
    have hk : containsKey (buildRecords actual) p.1 = true := by
      rw [← hkeys]
      exact containsKey_of_mem hp
    rcases lookupMap_eq_some_of_containsKey (buildRecords_keys_nodup actual) hk
      with ⟨r, hr⟩
    unfold updateStep
    rw [hr]
    dsimp only
    by_cases hm : r.is_managed_by cname = true
    · rw [if_neg (by simp [hm]), if_pos (hmatch p.1 p.2 r hle hr)]
    · rw [if_pos (by simp [Bool.not_eq_true] at hm; simp [hm])]
  rw [hc, hd, hu]
  rfl

/-- C2 witness: a zone holding one owned record that exactly matches the single desired
entry in identity, rdata, and ttl produces zero calls, even in Delete mode. -/
theorem reconcile_idempotent_witness :
    reconcileZone "z" "kz" Mode.Delete [sampleManagedRecord] [sampleEntryTtl300] = [] :=
  reconcile_idempotent "z" "kz" Mode.Delete [sampleManagedRecord] [sampleEntryTtl300]
    (fun _ => rfl)
    (by
      intro i e r h1 h2
      have he := mem_of_lookupMap_eq_some h1
      have hr := mem_of_lookupMap_eq_some h2
      rw [show buildEntries [sampleEntryTtl300] =
        [(RecordIdent.ofEntry sampleEntryTtl300, sampleEntryTtl300)] from rfl] at he
      rw [show buildRecords [sampleManagedRecord] =
        [(RecordIdent.ofRecord sampleManagedRecord, sampleManagedRecord)] from rfl] at hr
      simp only [List.mem_singleton, Prod.mk.injEq] at he hr
      rw [he.2, hr.2]
      exact ⟨rfl, rfl⟩)

/-- C4: for every desired identity in the SOA-filtered desired map that is absent from the
actual-records map, the pass issues exactly one create call carrying that entry, and the
create request built by the client stamps the comment with the owner marker
managed-by:controller-name. -/
theorem create_completeness (zid cname : String) (mode : Mode) (actual : List Record)
    (desired : List ZoneEntry) (i : RecordIdent) (e : ZoneEntry)
    (he : lookupMap (buildEntries desired) i = some e)
    (habs : containsKey (buildRecords actual) i = false) :
    (reconcileZone zid cname mode actual desired).count
        (ProviderCall.create zid cname e) = 1 ∧
    (create_record_payload zid cname e).comment = "managed-by:" ++ cname := by
  have hmem : (i, e) ∈ buildEntries desired := mem_of_lookupMap_eq_some he
  have hkey : i = RecordIdent.ofEntry e := buildEntries_key hmem
  constructor
  · unfold reconcileZone
    rw [List.count_append, List.count_append]
    have h1 : (createCalls zid cname (buildRecords actual) (buildEntries desired)).count
        (ProviderCall.create zid cname e) = 1 := by
      rw [createCalls, count_filterMap]
      apply countP_eq_one_of_key_nodup (buildEntries_keys_nodup desired) hmem
      intro p hp
      rw [decide_eq_true_eq]
      constructor
      · intro hq
        rcases createStep_eq_some_iff.mp hq with ⟨_, hcall⟩
        injection hcall with _ _ h3
        have hp1 : p.1 = i := by
          rw [buildEntries_key hp, ← h3, ← hkey]
        exact Prod.ext hp1 h3.symm
      · intro hpe
        rw [hpe]
        exact createStep_eq_some_iff.mpr ⟨habs, rfl⟩
    have h2 : (deleteCalls zid cname mode (buildRecords actual)
        (buildEntries desired)).count (ProviderCall.create zid cname e) = 0 := by
      rw [List.count_eq_zero]
      intro hin
      rcases List.mem_filterMap.mp hin with ⟨p, _, hstep⟩
      rcases deleteStep_eq_some_iff.mp hstep with ⟨_, _, _, hcall⟩
      exact ProviderCall.noConfusion hcall
    have h3 : (updateCalls zid cname (buildRecords actual)
        (buildEntries desired)).count (ProviderCall.create zid cname e) = 0 := by
      rw [List.count_eq_zero]
      intro hin
      rcases List.mem_filterMap.mp hin with ⟨p, _, hstep⟩
      rcases updateStep_eq_some_iff.mp hstep with ⟨_, _, _, _, hcall⟩
      exact ProviderCall.noConfusion hcall
    rw [h1, h2, h3]
  · rfl

/-- C4 witness: the desired entry b.example.com A 5.6.7.8 over an empty zone receives
exactly one create call, whose request comment is managed-by:kz. -/
theorem create_completeness_witness :
    (reconcileZone "z" "kz" Mode.Upsert [] [sampleEntryNew]).count
        (ProviderCall.create "z" "kz" sampleEntryNew) = 1 ∧
    (create_record_payload "z" "kz" sampleEntryNew).comment = "managed-by:" ++ "kz" :=
  create_completeness "z" "kz" Mode.Upsert [] [sampleEntryNew]
    (RecordIdent.ofEntry sampleEntryNew) sampleEntryNew (by decide) (by decide)

/-- C1: ownership safety. An actual record of the zone for which is_managed_by is false is
never the target of a delete or update call issued by the reconcile pass, for every mode
and every desired-entry list — including when its identity is absent from the desired set
and when it collides with a desired entry's identity — assuming the provider assigns
distinct record ids. -/
theorem ownership_safety (zid cname : String) (mode : Mode) (actual : List Record)
    (desired : List ZoneEntry) (r : Record)
    (hids : (actual.map Record.id).Nodup)
    (hmem : r ∈ actual)
    (hunmg : r.is_managed_by cname = false) :
    (reconcileZone zid cname mode actual desired).all
      (fun c => !callTargetsId c r.id) = true := by
  rw [List.all_eq_true]
  intro c hc
  unfold reconcileZone at hc
  simp only [List.mem_append] at hc
  have hid_inj : ∀ s : Record, s ∈ actual → s.id = r.id → s = r := by
    intro s hs hsid
    exact List.inj_on_of_nodup_map hids hs hmem hsid
  rcases hc with (hc | hc) | hc
  · rcases List.mem_filterMap.mp hc with ⟨p, _, hstep⟩
    rcases createStep_eq_some_iff.mp hstep with ⟨_, hcall⟩
    rw [hcall]
    rfl
  · rcases List.mem_filterMap.mp hc with ⟨p, hp, hstep⟩
    rcases deleteStep_eq_some_iff.mp hstep with ⟨_, hmg, _, hcall⟩
    rw [hcall]
    simp only [callTargetsId, Bool.not_eq_true', beq_eq_false_iff_ne, ne_eq]
    intro hsid
    have hpr : p.2 = r := hid_inj p.2 (buildRecords_val_mem hp) hsid
    rw [hpr, hunmg] at hmg
    exact Bool.false_ne_true hmg
  · rcases List.mem_filterMap.mp hc with ⟨p, hp, hstep⟩
    rcases updateStep_eq_some_iff.mp hstep with ⟨s, hs, hmg, _, hcall⟩
    rw [hcall]
    simp only [callTargetsId, Bool.not_eq_true', beq_eq_false_iff_ne, ne_eq]
    intro hsid
    have hsr : s = r :=
      hid_inj s (buildRecords_val_mem (mem_of_lookupMap_eq_some hs)) hsid
    rw [hsr, hunmg] at hmg
    exact Bool.false_ne_true hmg

/-- C1 witness: a record with a foreign comment whose identity collides with the desired
entry is never targeted by any call of the pass, even in Delete mode. -/
theorem ownership_safety_witness :
    (reconcileZone "z" "kz" Mode.Delete [sampleHandRecord] [sampleEntryTtl600]).all
      (fun c => !callTargetsId c sampleHandRecord.id) = true :=
  ownership_safety "z" "kz" Mode.Delete [sampleHandRecord] [sampleEntryTtl600]
    sampleHandRecord (by decide) (by decide) (by decide)

/-- C3: mode gating. An owned actual record whose identity is absent from the desired map
receives exactly one delete call when mode is Delete and none when mode is Upsert, and
under Upsert no call of the pass targets it at all, assuming actual identities and record
ids are distinct. -/
theorem mode_gating (zid cname : String) (mode : Mode) (actual : List Record)
    (desired : List ZoneEntry) (r : Record)
    (hident : (actual.map RecordIdent.ofRecord).Nodup)
    (hids : (actual.map Record.id).Nodup)
    (hmem : r ∈ actual)
    (hmg : r.is_managed_by cname = true)
    (horph : containsKey (buildEntries desired) (RecordIdent.ofRecord r) = false) :
    ((reconcileZone zid cname mode actual desired).count (ProviderCall.delete zid r.id)
        = if mode = Mode.Delete then 1 else 0) ∧
    (mode = Mode.Upsert →
      (reconcileZone zid cname mode actual desired).all
        (fun c => !callTargetsId c r.id) = true) := by
  have hid_inj : ∀ s : Record, s ∈ actual → s.id = r.id → s = r := by
    intro s hs hsid
    exact List.inj_on_of_nodup_map hids hs hmem hsid
  have hpair : (RecordIdent.ofRecord r, r) ∈ buildRecords actual :=
    mem_buildRecords_of_nodup hident hmem
  constructor
  · unfold reconcileZone
    rw [List.count_append, List.count_append]
    have h1 : (createCalls zid cname (buildRecords actual)
        (buildEntries desired)).count (ProviderCall.delete zid r.id) = 0 := by
      rw [List.count_eq_zero]
      intro hin
      rcases List.mem_filterMap.mp hin with ⟨p, _, hstep⟩
      rcases createStep_eq_some_iff.mp hstep with ⟨_, hcall⟩
      exact ProviderCall.noConfusion hcall
    have h3 : (updateCalls zid cname (buildRecords actual)
        (buildEntries desired)).count (ProviderCall.delete zid r.id) = 0 := by
      rw [List.count_eq_zero]
      intro hin
      rcases List.mem_filterMap.mp hin with ⟨p, _, hstep⟩
      rcases updateStep_eq_some_iff.mp hstep with ⟨_, _, _, _, hcall⟩
      exact ProviderCall.noConfusion hcall
    have h2 : (deleteCalls zid cname mode (buildRecords actual)
        (buildEntries desired)).count (ProviderCall.delete zid r.id)
        = if mode = Mode.Delete then 1 else 0 := by
      rw [deleteCalls, count_filterMap]
      by_cases hmode : mode = Mode.Delete
      · rw [if_pos hmode]
        apply countP_eq_one_of_key_nodup (buildRecords_keys_nodup actual) hpair
        intro p hp
        rw [decide_eq_true_eq]
        constructor
        · intro hq
          rcases deleteStep_eq_some_iff.mp hq with ⟨_, _, _, hcall⟩
          injection hcall with _ hid
          have hpr : p.2 = r := hid_inj p.2 (buildRecords_val_mem hp) hid.symm
          have hp1 : p.1 = RecordIdent.ofRecord r := by
            rw [buildRecords_key hp, hpr]
          exact Prod.ext hp1 hpr
        · intro hpe
          rw [hpe]
          exact deleteStep_eq_some_iff.mpr ⟨horph, hmg, hmode, rfl⟩
      · rw [if_neg hmode]
        apply countP_eq_zero_of_none
        intro p hp
        rw [decide_eq_false_iff_not]
        intro hq
        rcases deleteStep_eq_some_iff.mp hq with ⟨_, _, hmode2, _⟩
        exact hmode hmode2
    rw [h1, h2, h3]
    omega
  · intro hmode
    rw [List.all_eq_true]
    intro c hc
    unfold reconcileZone at hc
    simp only [List.mem_append] at hc
    rcases hc with (hc | hc) | hc
    · rcases List.mem_filterMap.mp hc with ⟨p, _, hstep⟩
      rcases createStep_eq_some_iff.mp hstep with ⟨_, hcall⟩
      rw [hcall]
      rfl
    · rcases List.mem_filterMap.mp hc with ⟨p, _, hstep⟩
      rcases deleteStep_eq_some_iff.mp hstep with ⟨_, _, hmode2, _⟩
      rw [hmode] at hmode2
      exact Mode.noConfusion hmode2
    · rcases List.mem_filterMap.mp hc with ⟨p, hp, hstep⟩
      rcases updateStep_eq_some_iff.mp hstep with ⟨s, hs, _, _, hcall⟩
      rw [hcall]
      simp only [callTargetsId, Bool.not_eq_true', beq_eq_false_iff_ne, ne_eq]
      intro hsid
      have hsr : s = r :=
        hid_inj s (buildRecords_val_mem (mem_of_lookupMap_eq_some hs)) hsid
      have hsp : (p.1, s) ∈ buildRecords actual := mem_of_lookupMap_eq_some hs
      have hp1 : p.1 = RecordIdent.ofRecord r := by
        have := buildRecords_key hsp
        rw [this, hsr]
      have hck : containsKey (buildEntries desired) p.1 = true := containsKey_of_mem hp
      rw [hp1, horph] at hck
      exact Bool.false_ne_true hck

/-- C3 witness: the owned record a.example.com with no matching desired entry receives
exactly one delete call in Delete mode. -/
theorem mode_gating_witness :
    ((reconcileZone "z" "kz" Mode.Delete [sampleManagedRecord] []).count
        (ProviderCall.delete "z" sampleManagedRecord.id)
        = if Mode.Delete = Mode.Delete then 1 else 0) ∧
    (Mode.Delete = Mode.Upsert →
      (reconcileZone "z" "kz" Mode.Delete [sampleManagedRecord] []).all
        (fun c => !callTargetsId c sampleManagedRecord.id) = true) :=
  mode_gating "z" "kz" Mode.Delete [sampleManagedRecord] [] sampleManagedRecord
    (by decide) (by decide) (by decide) (by decide) (by decide)

/-- C5: update triggers. For an identity present in both maps whose actual record is
owned, the pass issues exactly one update call — aimed at the actual record's id and
carrying the desired entry, hence the new ttl and the desired (for a ttl-only change,
unchanged) rdata — exactly when rdata or ttl differs, and that identity receives no create
call and its record no delete call, so a ttl-only change is one update and never a create
plus delete; record ids are assumed distinct. -/
theorem update_triggers (zid cname : String) (mode : Mode) (actual : List Record)
    (desired : List ZoneEntry) (i : RecordIdent) (e : ZoneEntry) (r : Record)
    (hids : (actual.map Record.id).Nodup)
    (he : lookupMap (buildEntries desired) i = some e)
    (hr : lookupMap (buildRecords actual) i = some r)
    (hmg : r.is_managed_by cname = true) :
    ((reconcileZone zid cname mode actual desired).count (ProviderCall.update zid r.id e)
        = if e.rdata = r.rdata ∧ e.ttl = r.ttl then 0 else 1) ∧
    ((reconcileZone zid cname mode actual desired).count
        (ProviderCall.create zid cname e) = 0) ∧
    ((reconcileZone zid cname mode actual desired).count
        (ProviderCall.delete zid r.id) = 0) := by
  have hepair : (i, e) ∈ buildEntries desired := mem_of_lookupMap_eq_some he
  have hrpair : (i, r) ∈ buildRecords actual := mem_of_lookupMap_eq_some hr
  have hkey : i = RecordIdent.ofEntry e := buildEntries_key hepair
  have hkeyr : i = RecordIdent.ofRecord r := buildRecords_key hrpair
  have hrmem : r ∈ actual := buildRecords_val_mem hrpair
  have hid_inj : ∀ s : Record, s ∈ actual → s.id = r.id → s = r := by
    intro s hs hsid
    exact List.inj_on_of_nodup_map hids hs hrmem hsid
  refine ⟨?_, ?_, ?_⟩
  · unfold reconcileZone
    rw [List.count_append, List.count_append]
    have h1 : (createCalls zid cname (buildRecords actual)
        (buildEntries desired)).count (ProviderCall.update zid r.id e) = 0 := by
      rw [List.count_eq_zero]
      intro hin
      rcases List.mem_filterMap.mp hin with ⟨p, _, hstep⟩
      rcases createStep_eq_some_iff.mp hstep with ⟨_, hcall⟩
      exact ProviderCall.noConfusion hcall
    have h2 : (deleteCalls zid cname mode (buildRecords actual)
        (buildEntries desired)).count (ProviderCall.update zid r.id e) = 0 := by
      rw [List.count_eq_zero]
      intro hin
      rcases List.mem_filterMap.mp hin with ⟨p, _, hstep⟩
      rcases deleteStep_eq_some_iff.mp hstep with ⟨_, _, _, hcall⟩
      exact ProviderCall.noConfusion hcall
    have h3 : (updateCalls zid cname (buildRecords actual)
        (buildEntries desired)).count (ProviderCall.update zid r.id e)
        = if e.rdata = r.rdata ∧ e.ttl = r.ttl then 0 else 1 := by
      rw [updateCalls, count_filterMap]
      by_cases hmatch : e.rdata = r.rdata ∧ e.ttl = r.ttl
      · rw [if_pos hmatch]
        apply countP_eq_zero_of_none
        intro p hp
        rw [decide_eq_false_iff_not]
        intro hq
        rcases updateStep_eq_some_iff.mp hq with ⟨s, hs, _, hne, hcall⟩
        injection hcall with _ _ hpe
        have hp1 : p.1 = i := by
          rw [buildEntries_key hp, ← hpe, ← hkey]
        rw [hp1, hr] at hs
        cases Option.some.inj hs
        rw [← hpe] at hne
        exact hne hmatch
      · rw [if_neg hmatch]
        apply countP_eq_one_of_key_nodup (buildEntries_keys_nodup desired) hepair
        intro p hp
        rw [decide_eq_true_eq]
        constructor
        · intro hq
          rcases updateStep_eq_some_iff.mp hq with ⟨s, _, _, _, hcall⟩
          injection hcall with _ _ hpe
          have hp1 : p.1 = i := by
            rw [buildEntries_key hp, ← hpe, ← hkey]
          exact Prod.ext hp1 hpe.symm
        · intro hpe
          rw [hpe]
          exact updateStep_eq_some_iff.mpr ⟨r, hr, hmg, hmatch, rfl⟩
    rw [h1, h2, h3]
    omega
  · unfold reconcileZone
    rw [List.count_append, List.count_append]
    have h1 : (createCalls zid cname (buildRecords actual)
        (buildEntries desired)).count (ProviderCall.create zid cname e) = 0 := by
      rw [createCalls, count_filterMap]
      apply countP_eq_zero_of_none
      intro p hp
      rw [decide_eq_false_iff_not]
      intro hq
      rcases createStep_eq_some_iff.mp hq with ⟨habsent, hcall⟩
      injection hcall with _ _ hpe
      have hp1 : p.1 = i := by
        rw [buildEntries_key hp, ← hpe, ← hkey]
      rw [hp1, containsKey_of_mem hrpair] at habsent
      exact Bool.noConfusion habsent
    have h2 : (deleteCalls zid cname mode (buildRecords actual)
        (buildEntries desired)).count (ProviderCall.create zid cname e) = 0 := by
      rw [List.count_eq_zero]
      intro hin
      rcases List.mem_filterMap.mp hin with ⟨p, _, hstep⟩
      rcases deleteStep_eq_some_iff.mp hstep with ⟨_, _, _, hcall⟩
      exact ProviderCall.noConfusion hcall
    have h3 : (updateCalls zid cname (buildRecords actual)
        (buildEntries desired)).count (ProviderCall.create zid cname e) = 0 := by
      rw [List.count_eq_zero]
      intro hin
      rcases List.mem_filterMap.mp hin with ⟨p, _, hstep⟩
      rcases updateStep_eq_some_iff.mp hstep with ⟨_, _, _, _, hcall⟩
      exact ProviderCall.noConfusion hcall
    rw [h1, h2, h3]
  · unfold reconcileZone
    rw [List.count_append, List.count_append]
    have h1 : (createCalls zid cname (buildRecords actual)
        (buildEntries desired)).count (ProviderCall.delete zid r.id) = 0 := by
      rw [List.count_eq_zero]
      intro hin
      rcases List.mem_filterMap.mp hin with ⟨p, _, hstep⟩
      rcases createStep_eq_some_iff.mp hstep with ⟨_, hcall⟩
      exact ProviderCall.noConfusion hcall
    have h2 : (deleteCalls zid cname mode (buildRecords actual)
        (buildEntries desired)).count (ProviderCall.delete zid r.id) = 0 := by
      rw [deleteCalls, count_filterMap]
      apply countP_eq_zero_of_none
      intro p hp
      rw [decide_eq_false_iff_not]
      intro hq
      rcases deleteStep_eq_some_iff.mp hq with ⟨habsent, _, _, hcall⟩
      injection hcall with _ hid
      have hpr : p.2 = r := hid_inj p.2 (buildRecords_val_mem hp) hid.symm
      have hp1 : p.1 = i := by
        rw [buildRecords_key hp, hpr, ← hkeyr]
      rw [hp1, containsKey_of_mem hepair] at habsent
      exact Bool.noConfusion habsent
    have h3 : (updateCalls zid cname (buildRecords actual)
        (buildEntries desired)).count (ProviderCall.delete zid r.id) = 0 := by
      rw [List.count_eq_zero]
      intro hin
      rcases List.mem_filterMap.mp hin with ⟨p, _, hstep⟩
      rcases updateStep_eq_some_iff.mp hstep with ⟨_, _, _, _, hcall⟩
      exact ProviderCall.noConfusion hcall
    rw [h1, h2, h3]

/-- C5 witness: the ttl-only change from ttl 300 to ttl 600 on the owned record
a.example.com yields exactly one update call carrying the new ttl and the unchanged
rdata, and no create or delete. -/
theorem update_triggers_witness :
    ((reconcileZone "z" "kz" Mode.Upsert [sampleManagedRecord] [sampleEntryTtl600]).count
        (ProviderCall.update "z" sampleManagedRecord.id sampleEntryTtl600)
        = if sampleEntryTtl600.rdata = sampleManagedRecord.rdata ∧
            sampleEntryTtl600.ttl = sampleManagedRecord.ttl then 0 else 1) ∧
    ((reconcileZone "z" "kz" Mode.Upsert [sampleManagedRecord] [sampleEntryTtl600]).count
        (ProviderCall.create "z" "kz" sampleEntryTtl600) = 0) ∧
    ((reconcileZone "z" "kz" Mode.Upsert [sampleManagedRecord] [sampleEntryTtl600]).count
        (ProviderCall.delete "z" sampleManagedRecord.id) = 0) :=
  update_triggers "z" "kz" Mode.Upsert [sampleManagedRecord] [sampleEntryTtl600]
    (RecordIdent.ofRecord sampleManagedRecord) sampleEntryTtl600 sampleManagedRecord
    (by decide) (by decide) (by decide) (by decide)

/-- C9 counterexample: a resource whose fully-qualified name is absent does not stop with
any distinct not-ready condition — it returns the ordinary successful requeue with zero
calls, the very same result as a valid ready resource whose desired-entries list is
present but empty reconciling an empty zone, so the two states are conflated in the
outcome. -/
theorem not_ready_counterexample :
    reconcile "kz" Mode.Delete [⟨"z1", fqdnExample⟩] (fun _ => [])
        ⟨"zone-a", none, some []⟩ = (.ok .requeue, []) ∧
    reconcile "kz" Mode.Delete [⟨"z1", fqdnExample⟩] (fun _ => [])
        ⟨"zone-b", some fqdnExample, some []⟩ = (.ok .requeue, []) :=
  ⟨rfl, rfl⟩

/-- C9 amended: a resource whose status (and so its desired-entries list) is absent stops
with the distinct typed ZoneHasNoEntries error and zero provider-mutation calls, never
conflated with a present-but-empty entries list, which proceeds through a normal pass over
the empty desired set; a resource whose fully-qualified name is absent also stops before
any provider mutation, but returns the ordinary successful requeue — the same outcome as a
normal pass — rather than any distinct not-ready condition. -/
theorem not_ready_handling (cname : String) (mode : Mode) (catalog : List CfZone)
    (fetch : String → List Record) (z : KubeZone) :
    (z.fqdn = none → reconcile cname mode catalog fetch z = (.ok .requeue, [])) ∧
    (∀ f cfz, z.fqdn = some f → find_cloudflare_zone catalog f = .ok cfz →
      z.status_entries = none →
      reconcile cname mode catalog fetch z = (.error (.zoneHasNoEntries z.name), [])) ∧
    (∀ f cfz, z.fqdn = some f → find_cloudflare_zone catalog f = .ok cfz →
      z.status_entries = some [] →
      reconcile cname mode catalog fetch z =
        (.ok .requeue, reconcileZone cfz.id cname mode (fetch cfz.id) [])) := by
  refine ⟨?_, ?_, ?_⟩
  · intro h
    unfold reconcile
    rw [h]
  · intro f cfz hf hfind hs
    unfold reconcile
    rw [hf]
    dsimp only
    rw [hfind]
    dsimp only
    rw [hs]
  · intro f cfz hf hfind hs
    unfold reconcile
    rw [hf]
    dsimp only
    rw [hfind]
    dsimp only
    rw [hs]

/-- C9 witness: a resource with an fqdn matching the catalog but an absent status stops
with the typed ZoneHasNoEntries error and zero calls. -/
theorem not_ready_handling_witness :
    reconcile "kz" Mode.Delete [⟨"z1", fqdnExample⟩] (fun _ => [])
        ⟨"zone-c", some fqdnExample, none⟩ =
      (.error (.zoneHasNoEntries "zone-c"), []) :=
  (not_ready_handling "kz" Mode.Delete [⟨"z1", fqdnExample⟩] (fun _ => [])
      ⟨"zone-c", some fqdnExample, none⟩).2.1 fqdnExample ⟨"z1", fqdnExample⟩ rfl rfl rfl

end CloudflareIntegration
